import Mathlib

/-!
A shallow embedding of the machine run ledger of `src/App.py` (the DANCO
Machine Output Tracker, a Streamlit + SQLite application), together with
theorems settling the claims about it.

Modelling choices:
* Instants are rationals (seconds).  The database stores start/end instants
  as TEXT produced by `datetime.isoformat()`; a stored text value either
  parses back to an instant or does not, which we model with `TimeStr`
  (`valid t` for a well-formed ISO string denoting instant `t`, `invalid`
  for any other text).  `datetime.fromisoformat` is modelled by `parseTime`.
* Python's `round(x, n)` (round half to even) is modelled on rationals by
  `roundHalfEven` / `round3` / `round2`.
* A SQLite table is a list of rows in rowid order; `AUTOINCREMENT` ids are
  modelled by `nextId` (one more than the largest id present).
* `UPDATE ... WHERE id=?` is a `List.map` touching rows with that id, and
  `INSERT` appends at the end, exactly as SQLite presents rows scanned
  without an ORDER BY.
-/

namespace OutputTracker

/-- A TEXT value stored in a start/end-instant column: either a well-formed
ISO string denoting the instant `t` (in seconds), or unparseable text. -/
inductive TimeStr where
  | valid (t : ℚ) : TimeStr
  | invalid : TimeStr
deriving DecidableEq

/-- Model of `datetime.fromisoformat` on a stored TEXT value. -/
def parseTime : TimeStr → Option ℚ
  | .valid t => some t
  | .invalid => none

/-- Round a rational to the nearest integer, ties to even — the semantics of
Python's built-in `round`. -/
def roundHalfEven (q : ℚ) : ℤ :=
  if Int.fract q < 1/2 then ⌊q⌋
  else if 1/2 < Int.fract q then ⌊q⌋ + 1
  else if Even ⌊q⌋ then ⌊q⌋ else ⌊q⌋ + 1

/-- Python's `round(x, 3)`. -/
def round3 (q : ℚ) : ℚ := (roundHalfEven (q * 1000) : ℚ) / 1000

/-- Python's `round(x, 2)`. -/
def round2 (q : ℚ) : ℚ := (roundHalfEven (q * 100) : ℚ) / 100

/-- Embedding of `calculate_deviation` (src/App.py lines 150–156).  Here `expected` is nullable
(`None` in Python is falsy, as is `0.0`); the guard `expected and
expected > 0` lets only a strictly positive expected value through, every
other case falls to `return 0.0`. -/
def calculate_deviation (expected : Option ℚ) (actual : ℚ) : ℚ :=
  match expected with
  | some e => if 0 < e then round2 ((actual - e) / e * 100) else 0
  | none => 0

/-- One row of the `run_log` table (src/App.py lines 40–52).  `end_time = none`
models SQL NULL (an open run); `run_hours = none` models a NULL duration. -/
structure RunSession where
  id : Nat
  date : String
  machine : String
  size : String
  start_time : TimeStr
  end_time : Option TimeStr
  run_hours : Option ℚ
  remarks : String
  added_by : String
deriving DecidableEq

/-- The WHERE clause `machine=? AND end_time IS NULL`. -/
def isOpenFor (m : String) (s : RunSession) : Bool :=
  s.machine == m && s.end_time.isNone

/-- The WHERE clause `machine=?`. -/
def machineIs (m : String) (s : RunSession) : Bool :=
  s.machine == m

/-- Comparison on stored start-instant text (ISO strings compare
lexicographically, which agrees with instant order for well-formed values;
the order against unparseable text is arbitrary). -/
def startLtB : TimeStr → TimeStr → Bool
  | .valid a, .valid b => a < b
  | .valid _, .invalid => false
  | .invalid, .valid _ => true
  | .invalid, .invalid => false

/-- Model of `ORDER BY start_time DESC LIMIT 1`: pick a row with maximal start text. -/
def pickMaxByStart : List RunSession → Option RunSession
  | [] => none
  | s :: rest =>
    match pickMaxByStart rest with
    | none => some s
    | some t => if startLtB s.start_time t.start_time then some t else some s

/-- The SELECT inside `finalize_previous_run` / `get_current_run_for_machine`
(src/App.py lines 159, 174): the open run for `m` with the latest start. -/
def latestOpen (t : List RunSession) (m : String) : Option RunSession :=
  pickMaxByStart (t.filter (isOpenFor m))

/-- The next `AUTOINCREMENT` id for a table. -/
def nextId (t : List RunSession) : Nat :=
  (t.map (fun s => s.id)).foldr max 0 + 1

/-- Embedding of `finalize_previous_run` (src/App.py lines 158–171): fetch the latest open
run for `machine`; if there is one, parse its start and the new start, set
`end_time` to the new start and `run_hours` to the rounded difference in
hours.  Any parse failure is caught and ignored (`except: pass`), leaving the
table unchanged. -/
def finalize_previous_run (t : List RunSession) (machine : String)
    (new_start : TimeStr) : List RunSession :=
  match latestOpen t machine with
  | none => t
  | some row =>
    match parseTime row.start_time, parseTime new_start with
    | some s, some e =>
      let run_hours := round3 ((e - s) / 3600)
      t.map (fun x =>
        if x.id = row.id then
          { x with end_time := some new_start, run_hours := some run_hours }
        else x)
    | _, _ => t

/-- The "Start New Run" submit handler (src/App.py lines 288–298):
`start_dt = datetime.combine(log_date, log_time)` always yields a valid
instant, `finalize_previous_run` is called with its ISO form, and one new
open row is inserted. -/
def startRun (t : List RunSession) (dateStr machine size : String)
    (start : ℚ) (remarks added_by : String) : List RunSession :=
  let start_ts := TimeStr.valid start
  let t1 := finalize_previous_run t machine start_ts
  t1 ++ [{ id := nextId t1, date := dateStr, machine := machine, size := size,
           start_time := start_ts, end_time := none, run_hours := none,
           remarks := remarks, added_by := added_by }]

/-- The inputs of one "Start New Run" submission. -/
structure StartCall where
  dateStr : String
  machine : String
  size : String
  start : ℚ
  remarks : String
  added_by : String
deriving DecidableEq

/-- Run a sequence of "Start New Run" submissions against an empty table. -/
def runSeq (cs : List StartCall) : List RunSession :=
  cs.foldl (fun t c => startRun t c.dateStr c.machine c.size c.start c.remarks c.added_by) []

/-- The start instant a stored row denotes (0 for unparseable text). -/
def startVal (s : RunSession) : ℚ :=
  (parseTime s.start_time).getD 0

/-- The live-elapsed contribution of one open row in
`compute_total_running_hours`: `(now - start_dt).total_seconds() / 3600.0`,
with unparseable starts skipped (`except: pass`, contributing nothing). -/
def sessionOngoing (now : ℚ) (s : RunSession) : ℚ :=
  match parseTime s.start_time with
  | some st => (now - st) / 3600
  | none => 0

/-- Embedding of `compute_total_running_hours` (src/App.py lines 180–193): the sum of
`run_hours` over rows `WHERE run_hours IS NOT NULL`, plus the live elapsed
time of every row `WHERE end_time IS NULL`, rounded to 3 decimal places.
The Python function reads `datetime.now()` itself; here `now` is explicit. -/
def compute_total_running_hours (t : List RunSession) (now : ℚ) : ℚ :=
  let sum_done := ((t.filter (fun s => s.run_hours.isSome)).map
    (fun s => s.run_hours.getD 0)).sum
  let sum_ongoing := ((t.filter (fun s => s.end_time.isNone)).map
    (sessionOngoing now)).sum
  round3 (sum_done + sum_ongoing)

/-- Modelled from the spec (§4.4): sum of `duration` over all sessions where
end is non-null, plus `(now − start)` in hours for every session with null
end, rounded to 3 decimal places.  Used only to compare against
`compute_total_running_hours`. -/
def totalRunningHours_spec (t : List RunSession) (now : ℚ) : ℚ :=
  round3 ((((t.filter (fun s => !s.end_time.isNone)).map
      (fun s => s.run_hours.getD 0)).sum)
    + (((t.filter (fun s => s.end_time.isNone)).map
      (fun s => (now - startVal s) / 3600)).sum))

/-- One row of the `expected_output` table (src/App.py lines 54–63). -/
structure ExpectedEntry where
  id : Nat
  material : String
  size : String
  pn : String
  machine : String
  expected : ℚ
deriving DecidableEq

/-- The WHERE clause `material=? AND size=? AND pn=? AND machine=?`. -/
def keyMatches (material size pn machine : String) (e : ExpectedEntry) : Bool :=
  e.material == material && e.size == size && e.pn == pn && e.machine == machine

/-- The next `AUTOINCREMENT` id for the `expected_output` table. -/
def nextExpId (t : List ExpectedEntry) : Nat :=
  (t.map (fun e => e.id)).foldr max 0 + 1

/-- Embedding of `get_expected_from_db` (src/App.py lines 195–198): first row matching the
four-part key, or null. -/
def get_expected_from_db (t : List ExpectedEntry)
    (material size pn machine : String) : Option ℚ :=
  ((t.filter (keyMatches material size pn machine)).head?).map
    (fun e => e.expected)

/-- The Expected Output Settings add/update handler (src/App.py lines
335–346): SELECT the first row matching the key; UPDATE its rate in place if
found, else INSERT a fresh row at the end. -/
def upsert (t : List ExpectedEntry) (material size pn machine : String)
    (rate : ℚ) : List ExpectedEntry :=
  match (t.filter (keyMatches material size pn machine)).head? with
  | some row =>
    t.map (fun e => if e.id = row.id then { e with expected := rate } else e)
  | none =>
    t ++ [{ id := nextExpId t, material := material, size := size, pn := pn,
            machine := machine, expected := rate }]

/-- At most one `expected_output` row per (material, size, pn, machine) key. -/
def atMostOnePerKey (t : List ExpectedEntry) : Prop :=
  ∀ material size pn machine : String,
    (t.filter (keyMatches material size pn machine)).length ≤ 1

/-- The expected-output prefill of the Machine Tracker entry form
(src/App.py lines 229–234): the reference lookup runs only when the selected
material equals "HDPE"; otherwise `expected_lookup` stays `None` and the
field defaults to `0.0`. -/
def prefillExpected (t : List ExpectedEntry)
    (material size pn machine : String) : ℚ :=
  if material == "HDPE" then
    match get_expected_from_db t material size pn machine with
    | some v => v
    | none => 0
  else 0

/-! ### Rounding lemmas -/

theorem floor_le_roundHalfEven (q : ℚ) : ⌊q⌋ ≤ roundHalfEven q := by
  unfold roundHalfEven
  split_ifs <;> omega

theorem roundHalfEven_le_floor_add_one (q : ℚ) : roundHalfEven q ≤ ⌊q⌋ + 1 := by
  unfold roundHalfEven
  split_ifs <;> omega

theorem roundHalfEven_mono {a b : ℚ} (h : a ≤ b) :
    roundHalfEven a ≤ roundHalfEven b := by
  rcases lt_or_ge ⌊a⌋ ⌊b⌋ with hf | hf
  · calc roundHalfEven a ≤ ⌊a⌋ + 1 := roundHalfEven_le_floor_add_one a
      _ ≤ ⌊b⌋ := by omega
      _ ≤ roundHalfEven b := floor_le_roundHalfEven b
  · have hfe : ⌊a⌋ = ⌊b⌋ := le_antisymm (Int.floor_mono h) hf
    have hfr : Int.fract a ≤ Int.fract b := by
      rw [← Int.self_sub_floor, ← Int.self_sub_floor, hfe]
      linarith
    unfold roundHalfEven
    rw [hfe]
    split_ifs <;> first
      | omega
      | (exfalso; linarith)

theorem roundHalfEven_zero : roundHalfEven 0 = 0 := by
  unfold roundHalfEven
  simp

theorem round3_mono {a b : ℚ} (h : a ≤ b) : round3 a ≤ round3 b := by
  unfold round3
  have h1 : a * 1000 ≤ b * 1000 := by linarith
  have h2 : (roundHalfEven (a * 1000) : ℚ) ≤ (roundHalfEven (b * 1000) : ℚ) :=
    Int.cast_le.2 (roundHalfEven_mono h1)
  exact (div_le_div_iff_of_pos_right (by norm_num)).2 h2

theorem round3_zero : round3 0 = 0 := by
  unfold round3
  rw [show ((0:ℚ) * 1000) = 0 by ring, roundHalfEven_zero]
  norm_num

theorem round3_nonpos {a : ℚ} (h : a ≤ 0) : round3 a ≤ 0 := by
  have := round3_mono h
  rwa [round3_zero] at this

theorem round3_one : round3 1 = 1 := by
  unfold round3 roundHalfEven
  have h1 : ((1:ℚ) * 1000) = 1000 := by ring
  rw [h1]
  norm_num

theorem round3_two : round3 2 = 2 := by
  unfold round3 roundHalfEven
  have h1 : ((2:ℚ) * 1000) = 2000 := by ring
  rw [h1]
  norm_num

/-! ### C3: deviation calculator -/

/-- C3: `calculate_deviation` returns 0 when expected is null, zero or
negative, and otherwise `((actual - expected) / expected) * 100` rounded to
2 decimal places; in particular `deviation(100, 90) = -10` and
`deviation(100, 115) = 15`. -/
theorem C3_deviation_calculator (e actual : ℚ) :
    calculate_deviation none actual = 0 ∧
    (e ≤ 0 → calculate_deviation (some e) actual = 0) ∧
    (0 < e → calculate_deviation (some e) actual = round2 ((actual - e) / e * 100)) ∧
    calculate_deviation (some 100) 90 = -10 ∧
    calculate_deviation (some 100) 115 = 15 := by
  refine ⟨rfl, ?_, ?_, ?_, ?_⟩
  · intro h
    simp [calculate_deviation, not_lt.2 h]
  · intro h
    simp [calculate_deviation, h]
  · show (if (0:ℚ) < 100 then round2 ((90 - 100) / 100 * 100) else 0) = -10
    rw [if_pos (by norm_num)]
    rw [show ((90:ℚ) - 100) / 100 * 100 = -10 by norm_num]
    unfold round2 roundHalfEven
    rw [show ((-10:ℚ) * 100) = ((-1000 : ℤ) : ℚ) by norm_num]
    rw [Int.fract_intCast, Int.floor_intCast]
    norm_num
  · show (if (0:ℚ) < 100 then round2 ((115 - 100) / 100 * 100) else 0) = 15
    rw [if_pos (by norm_num)]
    rw [show ((115:ℚ) - 100) / 100 * 100 = 15 by norm_num]
    unfold round2 roundHalfEven
    rw [show ((15:ℚ) * 100) = ((1500 : ℤ) : ℚ) by norm_num]
    rw [Int.fract_intCast, Int.floor_intCast]
    norm_num

/-- Witness for C3 at concrete inputs. -/
theorem C3_deviation_calculator_witness :
    ((0:ℚ) ≤ 0 ∧ calculate_deviation (some 0) 50 = 0) ∧
    ((0:ℚ) < 100 ∧ calculate_deviation (some 100) 115 = round2 ((115 - 100) / 100 * 100)) :=
  ⟨⟨le_refl 0, (C3_deviation_calculator 0 50).2.1 (le_refl 0)⟩,
   ⟨by norm_num, (C3_deviation_calculator 100 115).2.2.1 (by norm_num)⟩⟩

/-! ### C10: HDPE-only prefill -/

/-- C10: the expected-output prefill performs the reference lookup only for
material "HDPE"; for "PPR" and "PP" (and any other material) the prefill is
0 regardless of the reference table, while for "HDPE" a matching entry's
rate is used. -/
theorem C10_hdpe_only_prefill (t : List ExpectedEntry)
    (material size pn machine : String) (v : ℚ) :
    (material ≠ "HDPE" → prefillExpected t material size pn machine = 0) ∧
    prefillExpected t "PPR" size pn machine = 0 ∧
    prefillExpected t "PP" size pn machine = 0 ∧
    (get_expected_from_db t "HDPE" size pn machine = some v →
      prefillExpected t "HDPE" size pn machine = v) := by
  refine ⟨?_, ?_, ?_, ?_⟩
  · intro h
    simp [prefillExpected, h]
  · simp [prefillExpected]
  · simp [prefillExpected]
  · intro h
    simp [prefillExpected, h]

/-- A reference table holding a PPR entry and an HDPE entry, to witness C10:
the PPR entry is ignored by the prefill even though it matches. -/
def c10Table : List ExpectedEntry :=
  [{ id := 1, material := "PPR", size := "25", pn := "16",
     machine := "Machine 2", expected := 77 },
   { id := 2, material := "HDPE", size := "110", pn := "10",
     machine := "Machine 5", expected := 250 }]

/-- Witness for C10: with a matching PPR entry present the prefill is still
0, and the HDPE entry's rate is used for HDPE. -/
theorem C10_hdpe_only_prefill_witness :
    ("PPR" ≠ "HDPE" ∧ prefillExpected c10Table "PPR" "25" "16" "Machine 2" = 0) ∧
    (get_expected_from_db c10Table "HDPE" "110" "10" "Machine 5" = some 250 ∧
      prefillExpected c10Table "HDPE" "110" "10" "Machine 5" = 250) :=
  ⟨⟨by decide, (C10_hdpe_only_prefill c10Table "PPR" "25" "16" "Machine 2" 0).1 (by decide)⟩,
   ⟨rfl, (C10_hdpe_only_prefill c10Table "HDPE" "110" "10" "Machine 5" 250).2.2.2 rfl⟩⟩

/-! ### C4, C5: elapsed-time aggregator -/

/-- C4: on well-formed histories (a session's end instant is null exactly
when its stored duration is null, and open sessions have parseable starts —
both invariants of rows written by the app), `compute_total_running_hours`
computes the spec's formula: closed durations plus live elapsed time of open
sessions, rounded to 3 decimal places. -/
theorem C4_aggregator_definition (t : List RunSession) (now : ℚ)
    (h1 : ∀ s ∈ t, (s.end_time = none ↔ s.run_hours = none))
    (h2 : ∀ s ∈ t, s.end_time = none → s.start_time ≠ TimeStr.invalid) :
    compute_total_running_hours t now = totalRunningHours_spec t now := by
  unfold compute_total_running_hours totalRunningHours_spec
  have hfilter : t.filter (fun s => s.run_hours.isSome)
      = t.filter (fun s => !s.end_time.isNone) := by
    refine List.filter_congr ?_
    intro s hs
    have := h1 s hs
    cases he : s.end_time <;> cases hr : s.run_hours <;>
      simp_all
  have hmap : (t.filter (fun s => s.end_time.isNone)).map (sessionOngoing now)
      = (t.filter (fun s => s.end_time.isNone)).map
          (fun s => (now - startVal s) / 3600) := by
    refine List.map_congr_left ?_
    intro s hs
    rcases List.mem_filter.1 hs with ⟨hmem, hopen⟩
    have hvalid : s.start_time ≠ TimeStr.invalid :=
      h2 s hmem (by simpa using hopen)
    cases hst : s.start_time with
    | invalid => exact absurd hst hvalid
    | valid q => simp [sessionOngoing, startVal, parseTime, hst]
  rw [hfilter, hmap]

/-- A closed run with a stored duration and an open run, to witness C4. -/
def c4Closed : RunSession :=
  { id := 1, date := "2025-01-01", machine := "Machine 1",
    size := "20 mm PN 10", start_time := .valid 0,
    end_time := some (.valid 7200), run_hours := some 2,
    remarks := "", added_by := "op" }

/-- The open run used by the C4 witness. -/
def c4Open : RunSession :=
  { id := 2, date := "2025-01-01", machine := "Machine 2",
    size := "25 mm PN 10", start_time := .valid 7200,
    end_time := none, run_hours := none, remarks := "", added_by := "op" }

/-- Witness for C4 on a concrete two-session history. -/
theorem C4_aggregator_definition_witness :
    compute_total_running_hours [c4Closed, c4Open] 10800
      = totalRunningHours_spec [c4Closed, c4Open] 10800 :=
  C4_aggregator_definition [c4Closed, c4Open] 10800
    (by
      intro s hs
      simp only [List.mem_cons, List.not_mem_nil, or_false] at hs
      rcases hs with rfl | rfl <;> simp [c4Closed, c4Open])
    (by
      intro s hs
      simp only [List.mem_cons, List.not_mem_nil, or_false] at hs
      rcases hs with rfl | rfl <;> simp [c4Closed, c4Open])

/-- The open session used in C5's concrete monotonicity example. -/
def c5Open (T0 : ℚ) : RunSession :=
  { id := 1, date := "2025-01-01", machine := "Machine 1",
    size := "20 mm PN 10", start_time := .valid T0,
    end_time := none, run_hours := none, remarks := "", added_by := "op" }

theorem sessionOngoing_mono {now1 now2 : ℚ} (h : now1 ≤ now2)
    (s : RunSession) : sessionOngoing now1 s ≤ sessionOngoing now2 s := by
  unfold sessionOngoing
  cases parseTime s.start_time with
  | none => exact le_refl 0
  | some st =>
    exact (div_le_div_iff_of_pos_right (by norm_num)).2 (by linarith)

/-- C5: the aggregator is a pure function of its inputs (same sessions and
same `now` give the same value), is monotone in `now` for a fixed session
set, and on one open session started at `T0` yields exactly 1.0 at
`now = T0 + 1h` and 2.0 at `now = T0 + 2h` (instants in seconds). -/
theorem C5_aggregator_monotone (t : List RunSession) (now1 now2 T0 : ℚ) :
    compute_total_running_hours t now1 = compute_total_running_hours t now1 ∧
    (now1 ≤ now2 →
      compute_total_running_hours t now1 ≤ compute_total_running_hours t now2) ∧
    compute_total_running_hours [c5Open T0] (T0 + 3600) = 1 ∧
    compute_total_running_hours [c5Open T0] (T0 + 7200) = 2 := by
  refine ⟨rfl, ?_, ?_, ?_⟩
  · intro h
    unfold compute_total_running_hours
    refine round3_mono (add_le_add_left ?_ _)
    exact List.sum_le_sum (fun s _ => sessionOngoing_mono h s)
  · show round3 (0 + ((T0 + 3600 - T0) / 3600 + 0)) = 1
    rw [show (0 + ((T0 + 3600 - T0) / 3600 + 0) : ℚ) = 1 by ring]
    exact round3_one
  · show round3 (0 + ((T0 + 7200 - T0) / 3600 + 0)) = 2
    rw [show (0 + ((T0 + 7200 - T0) / 3600 + 0) : ℚ) = 2 by ring]
    exact round3_two

/-- Witness for C5 at concrete instants. -/
theorem C5_aggregator_monotone_witness :
    ((0:ℚ) ≤ 3600) ∧
    compute_total_running_hours [c5Open 0] 0
      ≤ compute_total_running_hours [c5Open 0] 3600 ∧
    compute_total_running_hours [c5Open 0] 3600 = 1 :=
  ⟨by norm_num,
   (C5_aggregator_monotone [c5Open 0] 0 3600 0).2.1 (by norm_num),
   by simpa using (C5_aggregator_monotone [c5Open 0] 0 3600 0).2.2.1⟩

/-! ### C6: reference-table upsert -/

theorem le_foldr_max {l : List ℕ} {a : ℕ} (h : a ∈ l) : a ≤ l.foldr max 0 := by
  induction l with
  | nil => cases h
  | cons b l ih =>
    rcases List.mem_cons.1 h with rfl | h
    · exact le_max_left _ _
    · exact le_trans (ih h) (le_max_right _ _)

theorem id_lt_nextExpId {t : List ExpectedEntry} {e : ExpectedEntry}
    (h : e ∈ t) : e.id < nextExpId t := by
  have : e.id ∈ t.map (fun x => x.id) := List.mem_map_of_mem _ h
  have := le_foldr_max this
  unfold nextExpId
  omega

theorem keyMatches_update (material size pn machine : String) (rate : ℚ)
    (rid : Nat) (e : ExpectedEntry) :
    keyMatches material size pn machine
        (if e.id = rid then { e with expected := rate } else e)
      = keyMatches material size pn machine e := by
  split <;> rfl

theorem filter_key_map_update (t : List ExpectedEntry)
    (material size pn machine : String) (rate : ℚ) (rid : Nat) :
    (t.map (fun e => if e.id = rid then { e with expected := rate } else e)).filter
        (keyMatches material size pn machine)
      = (t.filter (keyMatches material size pn machine)).map
        (fun e => if e.id = rid then { e with expected := rate } else e) := by
  rw [List.filter_map]
  congr 1
  exact List.filter_congr
    (fun e _ => keyMatches_update material size pn machine rate rid e)

theorem filter_eq_single_of_head? {t : List ExpectedEntry}
    {material size pn machine : String} {row : ExpectedEntry}
    (hinv : atMostOnePerKey t)
    (hh : (t.filter (keyMatches material size pn machine)).head? = some row) :
    t.filter (keyMatches material size pn machine) = [row] := by
  have hlen := hinv material size pn machine
  cases hl : t.filter (keyMatches material size pn machine) with
  | nil => rw [hl] at hh; cases hh
  | cons a l' =>
    rw [hl] at hh hlen
    cases hh
    simp only [List.length_cons] at hlen
    have : l' = [] := List.length_eq_zero.1 (by omega)
    rw [this]

theorem upsert_found {t : List ExpectedEntry}
    {material size pn machine : String} {row : ExpectedEntry} (rate : ℚ)
    (hinv : atMostOnePerKey t)
    (hh : (t.filter (keyMatches material size pn machine)).head? = some row) :
    (upsert t material size pn machine rate).filter
        (keyMatches material size pn machine) = [{ row with expected := rate }] ∧
    (upsert t material size pn machine rate).length = t.length := by
  unfold upsert
  rw [hh]
  constructor
  · rw [filter_key_map_update, filter_eq_single_of_head? hinv hh]
    simp
  · exact List.length_map t _

theorem upsert_notfound {t : List ExpectedEntry}
    {material size pn machine : String} (rate : ℚ)
    (hh : (t.filter (keyMatches material size pn machine)).head? = none) :
    (upsert t material size pn machine rate).filter
        (keyMatches material size pn machine)
      = [{ id := nextExpId t, material := material, size := size, pn := pn,
           machine := machine, expected := rate }] := by
  unfold upsert
  rw [hh, List.filter_append, List.head?_eq_none_iff.1 hh]
  simp [keyMatches]

theorem upsert_keeps_atMostOnePerKey {t : List ExpectedEntry}
    (hinv : atMostOnePerKey t) (material size pn machine : String) (rate : ℚ) :
    atMostOnePerKey (upsert t material size pn machine rate) := by
  intro material' size' pn' machine'
  unfold upsert
  cases hh : (t.filter (keyMatches material size pn machine)).head? with
  | some row =>
    rw [filter_key_map_update, List.length_map]
    exact hinv material' size' pn' machine'
  | none =>
    rw [List.filter_append]
    by_cases hk : keyMatches material' size' pn' machine'
        { id := nextExpId t, material := material, size := size, pn := pn,
          machine := machine, expected := rate } = true
    · simp only [keyMatches, Bool.and_eq_true, beq_iff_eq] at hk
      obtain ⟨⟨⟨h1, h2⟩, h3⟩, h5⟩ := hk
      subst h1; subst h2; subst h3; subst h5
      rw [List.head?_eq_none_iff.1 hh]
      simp only [List.nil_append]
      exact le_trans (List.length_filter_le _ _) (by simp)
    · rw [List.filter_cons_of_neg (by simpa using hk)]
      simpa using hinv material' size' pn' machine'

/-- C6: starting from any table with at most one entry per key, `upsert`
preserves that invariant for every key and rate; upserting rate 100 twice at
one key leaves exactly one entry for that key holding 100, and a further
upsert with 120 replaces that entry's rate in place (same id, no row added
or removed). -/
theorem C6_reference_upsert (t : List ExpectedEntry)
    (material size pn machine : String) (hinv : atMostOnePerKey t) :
    (∀ material' size' pn' machine' : String, ∀ rate : ℚ,
      atMostOnePerKey (upsert t material' size' pn' machine' rate)) ∧
    ∃ e, (upsert (upsert t material size pn machine 100)
            material size pn machine 100).filter
            (keyMatches material size pn machine) = [e] ∧
      e.expected = 100 ∧
      (upsert (upsert (upsert t material size pn machine 100)
            material size pn machine 100) material size pn machine 120).filter
            (keyMatches material size pn machine) = [{ e with expected := 120 }] ∧
      (upsert (upsert (upsert t material size pn machine 100)
            material size pn machine 100) material size pn machine 120).length
        = (upsert (upsert t material size pn machine 100)
            material size pn machine 100).length := by
  refine ⟨fun material' size' pn' machine' rate =>
    upsert_keeps_atMostOnePerKey hinv material' size' pn' machine' rate, ?_⟩
  have hinv1 := upsert_keeps_atMostOnePerKey hinv material size pn machine 100
  -- after the first upsert the key holds exactly one entry with rate 100
  have hfilter1 : ∃ e1, (upsert t material size pn machine 100).filter
      (keyMatches material size pn machine) = [e1] ∧ e1.expected = 100 := by
    cases hh : (t.filter (keyMatches material size pn machine)).head? with
    | some row =>
      exact ⟨{ row with expected := 100 },
        (upsert_found 100 hinv hh).1, rfl⟩
    | none => exact ⟨_, upsert_notfound 100 hh, rfl⟩
  obtain ⟨e1, he1, he1rate⟩ := hfilter1
  have hh1 : ((upsert t material size pn machine 100).filter
      (keyMatches material size pn machine)).head? = some e1 := by
    rw [he1]; rfl
  have hinv2 := upsert_keeps_atMostOnePerKey hinv1 material size pn machine 100
  have hfound2 := upsert_found 100 hinv1 hh1
  refine ⟨{ e1 with expected := 100 }, hfound2.1, rfl, ?_, ?_⟩
  · have hh2 : ((upsert (upsert t material size pn machine 100)
        material size pn machine 100).filter
        (keyMatches material size pn machine)).head? = some { e1 with expected := 100 } := by
      rw [hfound2.1]; rfl
    exact (upsert_found 120 hinv2 hh2).1
  · have hh2 : ((upsert (upsert t material size pn machine 100)
        material size pn machine 100).filter
        (keyMatches material size pn machine)).head? = some { e1 with expected := 100 } := by
      rw [hfound2.1]; rfl
    exact (upsert_found 120 hinv2 hh2).2

/-- Witness for C6 starting from the empty table. -/
theorem C6_reference_upsert_witness :
    atMostOnePerKey ([] : List ExpectedEntry) ∧
    (∃ e, (upsert (upsert ([] : List ExpectedEntry) "HDPE" "110" "10" "Machine 1" 100)
            "HDPE" "110" "10" "Machine 1" 100).filter
            (keyMatches "HDPE" "110" "10" "Machine 1") = [e] ∧
      e.expected = 100 ∧
      (upsert (upsert (upsert ([] : List ExpectedEntry) "HDPE" "110" "10" "Machine 1" 100)
            "HDPE" "110" "10" "Machine 1" 100) "HDPE" "110" "10" "Machine 1" 120).filter
            (keyMatches "HDPE" "110" "10" "Machine 1") = [{ e with expected := 120 }] ∧
      (upsert (upsert (upsert ([] : List ExpectedEntry) "HDPE" "110" "10" "Machine 1" 100)
            "HDPE" "110" "10" "Machine 1" 100) "HDPE" "110" "10" "Machine 1" 120).length
        = (upsert (upsert ([] : List ExpectedEntry) "HDPE" "110" "10" "Machine 1" 100)
            "HDPE" "110" "10" "Machine 1" 100).length) :=
  have hinv : atMostOnePerKey ([] : List ExpectedEntry) := by
    intro a b c d; simp [atMostOnePerKey]
  ⟨hinv, (C6_reference_upsert [] "HDPE" "110" "10" "Machine 1" hinv).2⟩

/-! ### Run-ledger characterization lemmas -/

theorem pickMaxByStart_eq_none {l : List RunSession} :
    pickMaxByStart l = none ↔ l = [] := by
  cases l with
  | nil => simp [pickMaxByStart]
  | cons s rest =>
    constructor
    · intro h
      exfalso
      simp only [pickMaxByStart] at h
      cases hp : pickMaxByStart rest with
      | none => rw [hp] at h; cases h
      | some t =>
        rw [hp] at h
        have h2 : (if startLtB s.start_time t.start_time = true
            then some t else some s) = (none : Option RunSession) := h
        by_cases hb : startLtB s.start_time t.start_time = true
        · rw [if_pos hb] at h2; cases h2
        · rw [if_neg hb] at h2; cases h2
    · intro h
      exact absurd h (List.cons_ne_nil _ _)

theorem pickMaxByStart_mem {l : List RunSession} {r : RunSession}
    (h : pickMaxByStart l = some r) : r ∈ l := by
  induction l with
  | nil => cases h
  | cons s rest ih =>
    simp only [pickMaxByStart] at h
    cases hp : pickMaxByStart rest with
    | none =>
      rw [hp] at h
      cases h
      exact List.mem_cons_self _ _
    | some t =>
      rw [hp] at h
      have h2 : (if startLtB s.start_time t.start_time = true
          then some t else some s) = some r := h
      by_cases hb : startLtB s.start_time t.start_time = true
      · rw [if_pos hb] at h2
        cases h2
        exact List.mem_cons_of_mem _ (ih hp)
      · rw [if_neg hb] at h2
        cases h2
        exact List.mem_cons_self _ _

theorem latestOpen_eq_none {t : List RunSession} {m : String} :
    latestOpen t m = none ↔ t.filter (isOpenFor m) = [] := by
  unfold latestOpen
  exact pickMaxByStart_eq_none

theorem latestOpen_mem {t : List RunSession} {m : String} {r : RunSession}
    (h : latestOpen t m = some r) : r ∈ t.filter (isOpenFor m) :=
  pickMaxByStart_mem h

theorem latestOpen_of_single {t : List RunSession} {m : String}
    {r : RunSession} (hf : t.filter (isOpenFor m) = [r]) :
    latestOpen t m = some r := by
  unfold latestOpen
  rw [hf]
  rfl

/-- The per-row effect of the UPDATE in `finalize_previous_run`: a row with
id `rid` is closed at end instant `endT` with `rh` run hours, any other row
is untouched. -/
def closeFn (rid : Nat) (endT rh : ℚ) (x : RunSession) : RunSession :=
  if x.id = rid then
    { x with end_time := some (TimeStr.valid endT), run_hours := some rh }
  else x

/-- The effect of the UPDATE in `finalize_previous_run`: close the rows with
id `rid` at end instant `endT`, recording `rh` run hours. -/
def closedUpdate (t : List RunSession) (rid : Nat) (endT rh : ℚ) :
    List RunSession :=
  t.map (closeFn rid endT rh)

theorem closeFn_machine (rid : Nat) (endT rh : ℚ) (x : RunSession) :
    (closeFn rid endT rh x).machine = x.machine := by
  unfold closeFn
  split <;> rfl

theorem closeFn_start (rid : Nat) (endT rh : ℚ) (x : RunSession) :
    (closeFn rid endT rh x).start_time = x.start_time := by
  unfold closeFn
  split <;> rfl

theorem closeFn_open_iff (rid : Nat) (endT rh : ℚ) (x : RunSession) :
    (closeFn rid endT rh x).end_time = none ↔ x.id ≠ rid ∧ x.end_time = none := by
  unfold closeFn
  split
  · next h => simp [h]
  · next h => simp [h]

theorem closeFn_of_ne {rid : Nat} (endT rh : ℚ) {x : RunSession}
    (h : x.id ≠ rid) : closeFn rid endT rh x = x :=
  if_neg h

/-- The row the "Start New Run" handler INSERTs. -/
def freshRun (t : List RunSession) (dateStr machine size : String) (T1 : ℚ)
    (remarks added_by : String) : RunSession :=
  { id := nextId t, date := dateStr, machine := machine, size := size,
    start_time := .valid T1, end_time := none, run_hours := none,
    remarks := remarks, added_by := added_by }

theorem finalize_eq_closedUpdate {t : List RunSession} {m : String}
    {r : RunSession} {T0 : ℚ} (T1 : ℚ)
    (hf : t.filter (isOpenFor m) = [r])
    (hs : r.start_time = TimeStr.valid T0) :
    finalize_previous_run t m (TimeStr.valid T1)
      = closedUpdate t r.id T1 (round3 ((T1 - T0) / 3600)) := by
  simp only [finalize_previous_run, latestOpen_of_single hf, hs, parseTime,
    closedUpdate, closeFn]
  rfl

theorem finalize_ids (t : List RunSession) (m : String) (ts : TimeStr) :
    (finalize_previous_run t m ts).map (fun s => s.id)
      = t.map (fun s => s.id) := by
  unfold finalize_previous_run
  split
  · rfl
  · split
    · rw [List.map_map]
      refine List.map_congr_left ?_
      intro x _
      simp only [Function.comp]
      split <;> rfl
    · rfl

theorem nextId_finalize (t : List RunSession) (m : String) (ts : TimeStr) :
    nextId (finalize_previous_run t m ts) = nextId t := by
  unfold nextId
  rw [finalize_ids]

theorem startRun_closes_and_inserts {t : List RunSession} {m : String}
    {r : RunSession} {T0 : ℚ} (d sz rem ab : String) (T1 : ℚ)
    (hf : t.filter (isOpenFor m) = [r])
    (hs : r.start_time = TimeStr.valid T0) :
    startRun t d m sz T1 rem ab
      = closedUpdate t r.id T1 (round3 ((T1 - T0) / 3600))
        ++ [freshRun t d m sz T1 rem ab] := by
  have hid : nextId (closedUpdate t r.id T1 (round3 ((T1 - T0) / 3600)))
      = nextId t := by
    rw [← finalize_eq_closedUpdate T1 hf hs, nextId_finalize]
  simp only [startRun, finalize_eq_closedUpdate T1 hf hs, hid]
  rfl

theorem startRun_no_open {t : List RunSession} {m : String}
    (d sz rem ab : String) (T1 : ℚ)
    (hf : t.filter (isOpenFor m) = []) :
    startRun t d m sz T1 rem ab = t ++ [freshRun t d m sz T1 rem ab] := by
  have hfin : finalize_previous_run t m (TimeStr.valid T1) = t := by
    unfold finalize_previous_run
    rw [latestOpen_eq_none.2 hf]
  simp only [startRun, hfin]
  rfl

theorem startRun_bad_open {t : List RunSession} {m : String} {r : RunSession}
    (d sz rem ab : String) (T1 : ℚ)
    (hlo : latestOpen t m = some r)
    (hbad : parseTime r.start_time = none) :
    startRun t d m sz T1 rem ab = t ++ [freshRun t d m sz T1 rem ab] := by
  have hfin : finalize_previous_run t m (TimeStr.valid T1) = t := by
    simp only [finalize_previous_run, hlo, hbad]
  simp only [startRun, hfin]
  rfl

/-! ### C2: closing side effect of startRun -/

/-- C2: when machine `m` has exactly one open session `r` with start `T0`,
`startRun` at instant `T1` closes `r` (end = `T1`, duration =
`(T1 − T0)/3600` hours rounded to 3 decimals) and appends exactly one fresh
open session with start `T1`. -/
theorem C2_closing_side_effect (t : List RunSession) (r : RunSession)
    (d m sz rem ab : String) (T0 T1 : ℚ)
    (hf : t.filter (isOpenFor m) = [r])
    (hs : r.start_time = TimeStr.valid T0) :
    startRun t d m sz T1 rem ab
      = closedUpdate t r.id T1 (round3 ((T1 - T0) / 3600))
        ++ [freshRun t d m sz T1 rem ab] :=
  startRun_closes_and_inserts d sz rem ab T1 hf hs

/-- The open run used by the C2 witness. -/
def c2Open : RunSession :=
  { id := 1, date := "2025-01-01", machine := "Machine 1",
    size := "20 mm PN 10", start_time := .valid 28800,
    end_time := none, run_hours := none, remarks := "", added_by := "op" }

/-- Witness for C2 on a one-session history. -/
theorem C2_closing_side_effect_witness :
    [c2Open].filter (isOpenFor "Machine 1") = [c2Open] ∧
    c2Open.start_time = TimeStr.valid 28800 ∧
    startRun [c2Open] "2025-01-01" "Machine 1" "25 mm PN 10" 30600 "" "op"
      = closedUpdate [c2Open] 1 30600 (round3 ((30600 - 28800) / 3600))
        ++ [freshRun [c2Open] "2025-01-01" "Machine 1" "25 mm PN 10" 30600 "" "op"] :=
  ⟨rfl, rfl,
   C2_closing_side_effect [c2Open] c2Open "2025-01-01" "Machine 1"
     "25 mm PN 10" "" "op" 28800 30600 rfl rfl⟩

/-! ### C7: negative-duration acceptance -/

/-- C7: when the open session's start `T0` lies strictly after the new start
`T1`, `startRun` still succeeds: the session is closed with the negative
duration `(T1 − T0)/3600` hours (rounded to 3 decimals, hence ≤ 0) stored
as-is, and the new session is inserted; no validation rejects the input. -/
theorem C7_negative_duration (t : List RunSession) (r : RunSession)
    (d m sz rem ab : String) (T0 T1 : ℚ)
    (hf : t.filter (isOpenFor m) = [r])
    (hs : r.start_time = TimeStr.valid T0)
    (hlt : T1 < T0) :
    startRun t d m sz T1 rem ab
      = closedUpdate t r.id T1 (round3 ((T1 - T0) / 3600))
        ++ [freshRun t d m sz T1 rem ab] ∧
    (T1 - T0) / 3600 < 0 ∧
    round3 ((T1 - T0) / 3600) ≤ 0 :=
  ⟨startRun_closes_and_inserts d sz rem ab T1 hf hs,
   div_neg_of_neg_of_pos (by linarith) (by norm_num),
   round3_nonpos (le_of_lt (div_neg_of_neg_of_pos (by linarith) (by norm_num)))⟩

/-- The open run used by the C7 witness (start instant 36000 s = 10:00). -/
def c7Open : RunSession :=
  { id := 1, date := "2025-01-01", machine := "Machine 2",
    size := "20 mm PN 10", start_time := .valid 36000,
    end_time := none, run_hours := none, remarks := "", added_by := "op" }

/-- Witness for C7: a start-run logged at 08:00 (28800 s) closes a session
opened at 10:00 (36000 s). -/
theorem C7_negative_duration_witness :
    [c7Open].filter (isOpenFor "Machine 2") = [c7Open] ∧
    c7Open.start_time = TimeStr.valid 36000 ∧
    (28800 : ℚ) < 36000 ∧
    (startRun [c7Open] "2025-01-01" "Machine 2" "25 mm PN 10" 28800 "" "op"
      = closedUpdate [c7Open] 1 28800 (round3 ((28800 - 36000) / 3600))
        ++ [freshRun [c7Open] "2025-01-01" "Machine 2" "25 mm PN 10" 28800 "" "op"] ∧
     (28800 - 36000 : ℚ) / 3600 < 0 ∧
     round3 ((28800 - 36000) / 3600) ≤ 0) :=
  ⟨rfl, rfl, by norm_num,
   C7_negative_duration [c7Open] c7Open "2025-01-01" "Machine 2"
     "25 mm PN 10" "" "op" 36000 28800 rfl rfl (by norm_num)⟩

/-! ### C8: error surfacing

The handler never fails: the caller-supplied date and time arrive as
structured `date`/`time` values and `datetime.combine` is total, so no
`InvalidTime` error can arise from caller input; and when the *stored* open
session's start text cannot be parsed, `finalize_previous_run` catches the
exception and ignores it (`except: pass`, src/App.py lines 169–171) — the
close is skipped, the insert still happens, and nothing is reported. -/

/-- An open run whose stored start text does not parse, for C8. -/
def c8BadOpen : RunSession :=
  { id := 5, date := "2025-01-01", machine := "Machine 3",
    size := "20 mm PN 10", start_time := .invalid,
    end_time := none, run_hours := none, remarks := "", added_by := "op" }

/-- C8 counterexample: with an open session whose stored start cannot be
parsed (an `InvalidTime` condition), `startRun` completes normally — it
returns a successor state in which the unparseable session is untouched and
still open and the new session has been inserted.  The validation failure is
silently swallowed, not surfaced, contradicting the claim. -/
theorem C8_counterexample :
    startRun [c8BadOpen] "2025-01-02" "Machine 3" "25 mm PN 10" 36000 "" "op"
      = [c8BadOpen,
         freshRun [c8BadOpen] "2025-01-02" "Machine 3" "25 mm PN 10" 36000 "" "op"] ∧
    c8BadOpen.end_time = none ∧
    parseTime c8BadOpen.start_time = none :=
  ⟨rfl, rfl, rfl⟩

/-- C8 (amended): `startRun` never fails; when the stored open session's
start text does not parse, the close is silently skipped and the new session
is inserted anyway. -/
theorem C8_error_swallowed (t : List RunSession) (r : RunSession)
    (d m sz rem ab : String) (T1 : ℚ)
    (hlo : latestOpen t m = some r)
    (hbad : parseTime r.start_time = none) :
    startRun t d m sz T1 rem ab = t ++ [freshRun t d m sz T1 rem ab] :=
  startRun_bad_open d sz rem ab T1 hlo hbad

/-- Witness for C8 (amended) on the concrete corrupted history. -/
theorem C8_error_swallowed_witness :
    latestOpen [c8BadOpen] "Machine 3" = some c8BadOpen ∧
    parseTime c8BadOpen.start_time = none ∧
    startRun [c8BadOpen] "2025-01-03" "Machine 3" "32 mm PN 10" 39600 "" "op"
      = [c8BadOpen] ++ [freshRun [c8BadOpen] "2025-01-03" "Machine 3"
          "32 mm PN 10" 39600 "" "op"] :=
  ⟨rfl, rfl,
   C8_error_swallowed [c8BadOpen] c8BadOpen "2025-01-03" "Machine 3"
     "32 mm PN 10" "" "op" 39600 rfl rfl⟩

/-! ### C9: startRun atomicity -/

/-- An open run whose stored start text does not parse, for C9. -/
def c9BadOpen : RunSession :=
  { id := 7, date := "2025-02-01", machine := "Machine 4",
    size := "40 mm PN 16", start_time := .invalid,
    end_time := none, run_hours := none, remarks := "", added_by := "op" }

/-- C9 counterexample: a partial-success state exists.  Starting from a
history whose open session has unparseable start text, `startRun` inserts
the new session (the state changes, length 1 → 2) while the close of the
previous open session does not take effect (it is still present with null
end), and the operation is not treated as failed. -/
theorem C9_counterexample :
    c9BadOpen ∈ startRun [c9BadOpen] "2025-02-02" "Machine 4" "50 mm PN 16"
        72000 "" "op" ∧
    c9BadOpen.end_time = none ∧
    (startRun [c9BadOpen] "2025-02-02" "Machine 4" "50 mm PN 16"
        72000 "" "op").length = 2 :=
  ⟨List.mem_cons_self _ _, rfl, rfl⟩

/-- C9 (amended): the insert always takes effect; the close takes effect
precisely when the stored open session's start text parses — both effects
happen together in that case (which covers every history the app itself
writes), while an unparseable stored start yields an insert-only partial
outcome, and `startRun` never fails. -/
theorem C9_atomicity (t : List RunSession) (r : RunSession)
    (d m sz rem ab : String) (T1 : ℚ)
    (hf : t.filter (isOpenFor m) = [r]) :
    (∀ T0 : ℚ, r.start_time = TimeStr.valid T0 →
      startRun t d m sz T1 rem ab
        = closedUpdate t r.id T1 (round3 ((T1 - T0) / 3600))
          ++ [freshRun t d m sz T1 rem ab]) ∧
    (r.start_time = TimeStr.invalid →
      startRun t d m sz T1 rem ab = t ++ [freshRun t d m sz T1 rem ab]) :=
  ⟨fun T0 hs => startRun_closes_and_inserts d sz rem ab T1 hf hs,
   fun hbad => startRun_bad_open d sz rem ab T1 (latestOpen_of_single hf)
     (by rw [hbad]; rfl)⟩

/-- The open run used by the C9 witness. -/
def c9Open : RunSession :=
  { id := 3, date := "2025-02-01", machine := "Machine 5",
    size := "63 mm PN 16", start_time := .valid 28800,
    end_time := none, run_hours := none, remarks := "", added_by := "op" }

/-- Witness for C9 (amended): on a parseable history both the close and the
insert take effect. -/
theorem C9_atomicity_witness :
    [c9Open].filter (isOpenFor "Machine 5") = [c9Open] ∧
    c9Open.start_time = TimeStr.valid 28800 ∧
    startRun [c9Open] "2025-02-01" "Machine 5" "75 mm PN 16" 32400 "" "op"
      = closedUpdate [c9Open] 3 32400 (round3 ((32400 - 28800) / 3600))
        ++ [freshRun [c9Open] "2025-02-01" "Machine 5" "75 mm PN 16" 32400 "" "op"] :=
  ⟨rfl, rfl,
   (C9_atomicity [c9Open] c9Open "2025-02-01" "Machine 5" "75 mm PN 16"
     "" "op" 32400 rfl).1 28800 rfl⟩

/-! ### C1: single-open-run invariant -/

/-- The ledger invariant maintained by `startRun` on histories it builds
from an empty table: at most one open run per machine, open runs have
parseable starts, and each machine's open run (if any) is the last row of
that machine's history in insertion (rowid) order. -/
def LedgerInv (t : List RunSession) : Prop :=
  (∀ m : String, (t.filter (isOpenFor m)).length ≤ 1) ∧
  (∀ s ∈ t, s.end_time = none → s.start_time ≠ TimeStr.invalid) ∧
  (∀ m : String, ∀ s ∈ t.filter (machineIs m), s.end_time = none →
    (t.filter (machineIs m)).getLast? = some s)

theorem ledgerInv_nil : LedgerInv [] := by
  refine ⟨fun m => by simp, fun s hs => absurd hs (List.not_mem_nil s),
    fun m s hs => absurd hs (by simp)⟩

theorem length_filter_mono {α : Type} {p q : α → Bool} {l : List α}
    (h : ∀ x ∈ l, p x = true → q x = true) :
    (l.filter p).length ≤ (l.filter q).length := by
  induction l with
  | nil => simp
  | cons a l ih =>
    have ih' := ih (fun x hx => h x (List.mem_cons_of_mem _ hx))
    by_cases hp : p a = true
    · rw [List.filter_cons_of_pos hp,
        List.filter_cons_of_pos (h a (List.mem_cons_self _ _) hp)]
      simpa using ih'
    · rw [List.filter_cons_of_neg (by simpa using hp)]
      cases hq : q a
      · rw [List.filter_cons_of_neg (by simp [hq])]
        exact ih'
      · rw [List.filter_cons_of_pos (by simp [hq])]
        exact le_trans ih' (by simp)

theorem ledgerInv_startRun {t : List RunSession} (h : LedgerInv t)
    (d m sz rem ab : String) (T1 : ℚ) :
    LedgerInv (startRun t d m sz T1 rem ab) := by
  obtain ⟨ha, hb, hc⟩ := h
  by_cases hA : t.filter (isOpenFor m) = []
  · -- the machine was idle: only the insert happens
    rw [startRun_no_open d sz rem ab T1 hA]
    set F := freshRun t d m sz T1 rem ab with hF
    have hFm : F.machine = m := rfl
    have hFe : F.end_time = none := rfl
    have hFs : F.start_time = TimeStr.valid T1 := rfl
    refine ⟨?_, ?_, ?_⟩
    · intro m'
      rw [List.filter_append]
      by_cases hm : m = m'
      · subst hm
        rw [hA]
        simp [isOpenFor, hFm, hFe]
      · have hm2 : m ≠ m' := hm
        have hFnil : List.filter (isOpenFor m') [F] = [] := by
          simp [isOpenFor, hFm, hFe, hm2]
        rw [hFnil, List.append_nil]
        exact ha m'
    · intro s hs hopen
      rcases List.mem_append.1 hs with hst | hsF
      · exact hb s hst hopen
      · have hsF' : s = F := by simpa using hsF
        rw [hsF', hFs]
        intro hcon
        cases hcon
    · intro m' s hs hopen
      rw [List.filter_append] at hs ⊢
      by_cases hm : m = m'
      · subst hm
        have hfF : List.filter (machineIs m) [F] = [F] := by
          simp [machineIs, hFm]
        rw [hfF] at hs ⊢
        rcases List.mem_append.1 hs with hst | hsF
        · exfalso
          rcases List.mem_filter.1 hst with ⟨hmem, hmac⟩
          have hopen' : s ∈ t.filter (isOpenFor m) := by
            refine List.mem_filter.2 ⟨hmem, ?_⟩
            unfold isOpenFor
            unfold machineIs at hmac
            simp [hmac, hopen]
          rw [hA] at hopen'
          exact List.not_mem_nil s hopen'
        · have hsF' : s = F := by simpa using hsF
          rw [hsF']
          exact List.getLast?_concat _
      · have hm2 : m ≠ m' := hm
        have hfF : List.filter (machineIs m') [F] = [] := by
          simp [machineIs, hFm, hm2]
        rw [hfF, List.append_nil] at hs ⊢
        exact hc m' s hs hopen
  · -- the machine had an open run: it is closed and the insert happens
    obtain ⟨r, hfr⟩ : ∃ r, t.filter (isOpenFor m) = [r] := by
      cases hl : t.filter (isOpenFor m) with
      | nil => exact absurd hl hA
      | cons a l' =>
        have hlen := ha m
        rw [hl] at hlen
        simp only [List.length_cons] at hlen
        have hl' : l' = [] := List.length_eq_zero.1 (by omega)
        exact ⟨a, by rw [hl']⟩
    have hrmem : r ∈ t ∧ isOpenFor m r = true :=
      List.mem_filter.1 (hfr ▸ List.mem_cons_self r [])
    obtain ⟨hrt, hropen⟩ := hrmem
    have hropen' : (r.machine == m) = true ∧ r.end_time.isNone = true := by
      simpa [isOpenFor, Bool.and_eq_true] using hropen
    have hre : r.end_time = none := Option.isNone_iff_eq_none.1 hropen'.2
    have hrs : r.start_time ≠ TimeStr.invalid := hb r hrt hre
    obtain ⟨T0, hsT0⟩ : ∃ T0, r.start_time = TimeStr.valid T0 := by
      cases hx : r.start_time with
      | valid q => exact ⟨q, rfl⟩
      | invalid => exact absurd hx hrs
    rw [startRun_closes_and_inserts d sz rem ab T1 hfr hsT0]
    unfold closedUpdate
    set rh := round3 ((T1 - T0) / 3600) with hrh
    set F := freshRun t d m sz T1 rem ab with hF
    set g := closeFn r.id T1 rh with hg
    have hFm : F.machine = m := rfl
    have hFe : F.end_time = none := rfl
    have hFs : F.start_time = TimeStr.valid T1 := rfl
    have hopen_mem_r : ∀ x ∈ t, ((g x).machine == m) = true →
        (g x).end_time = none → False := by
      intro x hx hgm hge
      have hxe := (closeFn_open_iff r.id T1 rh x).1 hge
      have hxm : (x.machine == m) = true := by
        rw [← closeFn_machine r.id T1 rh x]
        exact hgm
      have hxmem : x ∈ t.filter (isOpenFor m) := by
        refine List.mem_filter.2 ⟨hx, ?_⟩
        unfold isOpenFor
        simp [hxm, hxe.2]
      rw [hfr] at hxmem
      have hxr : x = r := by simpa using hxmem
      exact hxe.1 (by rw [hxr])
    refine ⟨?_, ?_, ?_⟩
    · intro m'
      rw [List.filter_append]
      by_cases hm : m = m'
      · subst hm
        have hnil : (t.map g).filter (isOpenFor m) = [] := by
          rw [List.filter_map]
          rw [List.filter_eq_nil_iff.2 ?_]
          · rfl
          · intro x hx hgx
            have hgx' : ((g x).machine == m) = true ∧ (g x).end_time.isNone = true := by
              simpa [Function.comp, isOpenFor, Bool.and_eq_true] using hgx
            exact hopen_mem_r x hx hgx'.1 (Option.isNone_iff_eq_none.1 hgx'.2)
        rw [hnil]
        simp [isOpenFor, hFm, hFe]
      · have hm2 : m ≠ m' := hm
        have hFnil : List.filter (isOpenFor m') [F] = [] := by
          simp [isOpenFor, hFm, hFe, hm2]
        rw [hFnil, List.append_nil]
        rw [List.filter_map, List.length_map]
        refine le_trans (length_filter_mono ?_) (ha m')
        intro x _ hgx
        have hgx' : ((g x).machine == m') = true ∧ (g x).end_time.isNone = true := by
          simpa [Function.comp, isOpenFor, Bool.and_eq_true] using hgx
        have hxe := (closeFn_open_iff r.id T1 rh x).1
          (Option.isNone_iff_eq_none.1 hgx'.2)
        have hxm : (x.machine == m') = true := by
          rw [← closeFn_machine r.id T1 rh x]
          exact hgx'.1
        unfold isOpenFor
        simp [hxm, hxe.2]
    · intro s hs hopen
      rcases List.mem_append.1 hs with hst | hsF
      · rcases List.mem_map.1 hst with ⟨x, hxt, hxg⟩
        have hstart : s.start_time = x.start_time := by
          rw [← hxg, closeFn_start]
        have hge : (g x).end_time = none := by rw [hxg]; exact hopen
        have hxe := (closeFn_open_iff r.id T1 rh x).1 hge
        rw [hstart]
        exact hb x hxt hxe.2
      · have hsF' : s = F := by simpa using hsF
        rw [hsF', hFs]
        intro hcon
        cases hcon
    · intro m' s hs hopen
      have hcomm : (t.map g).filter (machineIs m')
          = (t.filter (machineIs m')).map g := by
        rw [List.filter_map]
        congr 1
        refine List.filter_congr ?_
        intro x _
        show machineIs m' (g x) = machineIs m' x
        unfold machineIs
        rw [closeFn_machine]
      rw [List.filter_append, hcomm] at hs ⊢
      by_cases hm : m = m'
      · subst hm
        have hfF : List.filter (machineIs m) [F] = [F] := by
          simp [machineIs, hFm]
        rw [hfF] at hs ⊢
        rcases List.mem_append.1 hs with hst | hsF
        · exfalso
          rcases List.mem_map.1 hst with ⟨y, hyf, hyg⟩
          rcases List.mem_filter.1 hyf with ⟨hyt, hymac⟩
          have hge : (g y).end_time = none := by rw [hyg]; exact hopen
          have hgm : ((g y).machine == m) = true := by
            rw [closeFn_machine]
            exact hymac
          exact hopen_mem_r y hyt hgm hge
        · have hsF' : s = F := by simpa using hsF
          rw [hsF']
          exact List.getLast?_concat _
      · have hm2 : m ≠ m' := hm
        have hfF : List.filter (machineIs m') [F] = [] := by
          simp [machineIs, hFm, hm2]
        rw [hfF, List.append_nil] at hs ⊢
        rcases List.mem_map.1 hs with ⟨y, hyf, hyg⟩
        have hge : (g y).end_time = none := by rw [hyg]; exact hopen
        have hye := (closeFn_open_iff r.id T1 rh y).1 hge
        have hgy : g y = y := closeFn_of_ne T1 rh hye.1
        have hsy : s = y := by rw [← hyg, hgy]
        rw [List.getLast?_map, hc m' y hyf hye.2]
        simp [hgy, hsy]

theorem ledgerInv_runSeq (cs : List StartCall) : LedgerInv (runSeq cs) := by
  suffices h : ∀ t, LedgerInv t →
      LedgerInv (cs.foldl (fun t c =>
        startRun t c.dateStr c.machine c.size c.start c.remarks c.added_by) t) by
    exact h [] ledgerInv_nil
  induction cs with
  | nil => intro t ht; exact ht
  | cons c cs ih =>
    intro t ht
    exact ih _ (ledgerInv_startRun ht c.dateStr c.machine c.size
      c.remarks c.added_by c.start)

theorem le_getLast_of_pairwise {α : Type} (f : α → ℚ) {l : List α}
    (hp : l.Pairwise (fun a b => f a ≤ f b)) {s : α}
    (hl : l.getLast? = some s) : ∀ x ∈ l, f x ≤ f s := by
  induction l with
  | nil => intro x hx; cases hx
  | cons a l ih =>
    rcases List.pairwise_cons.1 hp with ⟨hall, hp'⟩
    cases l with
    | nil =>
      have hsa : a = s := by simpa using hl
      intro x hx
      have hxa : x = a := by simpa using hx
      rw [hxa, hsa]
    | cons b l' =>
      have hl' : (b :: l').getLast? = some s := by
        rw [← hl]
        rfl
      have hs_mem : s ∈ b :: l' := List.mem_of_mem_getLast? (by simp [hl'])
      intro x hx
      rcases List.mem_cons.1 hx with rfl | hx'
      · exact hall s hs_mem
      · exact ih hp' hl' x hx'

/-- C1 (amended): after any sequence of successful `startRun` calls against
an initially empty ledger, each machine's history contains at most one
session with a null end instant, and that open session is the last element
in insertion (rowid) order; it is also the last by start-instant order
whenever the machine's start instants are non-decreasing in insertion order
— out-of-order start instants are accepted and place the open session
earlier in start order. -/
theorem C1_single_open_run (cs : List StartCall) (m : String) :
    ((runSeq cs).filter (isOpenFor m)).length ≤ 1 ∧
    (∀ s ∈ (runSeq cs).filter (machineIs m), s.end_time = none →
      ((runSeq cs).filter (machineIs m)).getLast? = some s) ∧
    (((runSeq cs).filter (machineIs m)).Pairwise
        (fun a b => startVal a ≤ startVal b) →
      ∀ s ∈ (runSeq cs).filter (machineIs m), s.end_time = none →
        ∀ s' ∈ (runSeq cs).filter (machineIs m), startVal s' ≤ startVal s) := by
  obtain ⟨ha, _, hc⟩ := ledgerInv_runSeq cs
  refine ⟨ha m, hc m, ?_⟩
  intro hp s hs hopen s' hs'
  exact le_getLast_of_pairwise startVal hp (hc m s hs hopen) s' hs'

/-- First start-run submission of the C1 witness (start 3600 s = 01:00). -/
def c1WitCallA : StartCall :=
  { dateStr := "2025-01-01", machine := "Machine 1", size := "20 mm PN 10",
    start := 3600, remarks := "", added_by := "op" }

/-- Second start-run submission of the C1 witness (start 7200 s = 02:00). -/
def c1WitCallB : StartCall :=
  { dateStr := "2025-01-01", machine := "Machine 1", size := "25 mm PN 10",
    start := 7200, remarks := "", added_by := "op" }

/-- The closed row produced by the C1 witness sequence. -/
def c1WitClosed : RunSession :=
  { id := 1, date := "2025-01-01", machine := "Machine 1",
    size := "20 mm PN 10", start_time := .valid 3600,
    end_time := some (.valid 7200),
    run_hours := some (round3 ((7200 - 3600) / 3600)),
    remarks := "", added_by := "op" }

/-- The open row produced by the C1 witness sequence. -/
def c1WitOpen : RunSession :=
  { id := 2, date := "2025-01-01", machine := "Machine 1",
    size := "25 mm PN 10", start_time := .valid 7200,
    end_time := none, run_hours := none, remarks := "", added_by := "op" }

/-- Witness for C1 on an in-order two-call sequence. -/
theorem C1_single_open_run_witness :
    ((runSeq [c1WitCallA, c1WitCallB]).filter (machineIs "Machine 1")).Pairwise
        (fun a b => startVal a ≤ startVal b) ∧
    c1WitOpen.end_time = none ∧
    (∀ s' ∈ (runSeq [c1WitCallA, c1WitCallB]).filter (machineIs "Machine 1"),
      startVal s' ≤ startVal c1WitOpen) := by
  have hrs : (runSeq [c1WitCallA, c1WitCallB]).filter (machineIs "Machine 1")
      = [c1WitClosed, c1WitOpen] := rfl
  have hp : ((runSeq [c1WitCallA, c1WitCallB]).filter
      (machineIs "Machine 1")).Pairwise (fun a b => startVal a ≤ startVal b) := by
    rw [hrs]
    refine List.pairwise_cons.2 ⟨fun b hb => ?_, List.pairwise_singleton _ _⟩
    have hb' : b = c1WitOpen := by simpa using hb
    rw [hb']
    show ((3600 : ℚ)) ≤ 7200
    norm_num
  refine ⟨hp, rfl, ?_⟩
  intro s' hs'
  refine (C1_single_open_run [c1WitCallA, c1WitCallB] "Machine 1").2.2 hp
    c1WitOpen ?_ rfl s' hs'
  rw [hrs]
  exact List.mem_cons_of_mem _ (List.mem_cons_self _ _)

/-- First start-run submission of the C1 counterexample (start 36000 s). -/
def c1CexCallA : StartCall :=
  { dateStr := "2025-01-01", machine := "Machine 1", size := "20 mm PN 10",
    start := 36000, remarks := "", added_by := "op" }

/-- Second start-run submission of the C1 counterexample (start 28800 s,
earlier than the first). -/
def c1CexCallB : StartCall :=
  { dateStr := "2025-01-01", machine := "Machine 1", size := "25 mm PN 10",
    start := 28800, remarks := "", added_by := "op" }

/-- The closed row produced by the C1 counterexample sequence. -/
def c1CexClosed : RunSession :=
  { id := 1, date := "2025-01-01", machine := "Machine 1",
    size := "20 mm PN 10", start_time := .valid 36000,
    end_time := some (.valid 28800),
    run_hours := some (round3 ((28800 - 36000) / 3600)),
    remarks := "", added_by := "op" }

/-- The open row produced by the C1 counterexample sequence. -/
def c1CexOpen : RunSession :=
  { id := 2, date := "2025-01-01", machine := "Machine 1",
    size := "25 mm PN 10", start_time := .valid 28800,
    end_time := none, run_hours := none, remarks := "", added_by := "op" }

/-- C1 counterexample: two successful `startRun` calls whose start instants
decrease leave the open session with a *smaller* start instant than a closed
session of the same machine, so the open session is not the last element by
start-instant order, contradicting the claim as stated. -/
theorem C1_counterexample :
    ∃ s ∈ runSeq [c1CexCallA, c1CexCallB], s.end_time = none ∧
      ∃ s' ∈ runSeq [c1CexCallA, c1CexCallB], s'.end_time ≠ none ∧
        startVal s < startVal s' := by
  have hrs : runSeq [c1CexCallA, c1CexCallB] = [c1CexClosed, c1CexOpen] := rfl
  refine ⟨c1CexOpen, ?_, rfl, c1CexClosed, ?_, ?_, ?_⟩
  · rw [hrs]
    exact List.mem_cons_of_mem _ (List.mem_cons_self _ _)
  · rw [hrs]
    exact List.mem_cons_self _ _
  · intro hcon
    cases hcon
  · show ((28800 : ℚ)) < 36000
    norm_num

end OutputTracker
